import Mathlib

/-
  Verification of the pyCHIL topographic-map assembler.

  Shallow embedding of the core data model and operations of the repository
  (block.py, map.py, utils.py) over exact rationals.  Python floats are
  modelled as rationals; the geodesic collaborators of geopy
  (distance, destination) are abstracted as function parameters, as the
  specification treats them as external capabilities.  Fallible operations
  (raising BlockException or calling sys.exit) are modelled with Option.
-/

/-- geopy.point.Point, restricted to the two coordinates the code uses. -/
structure GeoPoint where
  latitude : ℚ
  longitude : ℚ
deriving DecidableEq, Repr

/-- The Munch record returned by utils.to_sexagesimal (fields deg, min, sec). -/
structure Sexagesimal where
  deg : ℤ
  min : ℤ
  sec : ℚ
deriving DecidableEq, Repr

/-- Truncation toward zero: the integer part returned by Python math.modf,
and the behaviour of int() on a float. -/
def truncQ (x : ℚ) : ℤ := if 0 ≤ x then ⌊x⌋ else ⌈x⌉

/-- Python round(value, 2): rounding to two decimal places.  (Python uses
round-half-to-even on binary floats; over exact rationals we use the
round-half-up of Mathlib.  All theorems below only use the property
that the result is within 1/200 of the argument, which both conventions
satisfy.) -/
def round2 (x : ℚ) : ℚ := (round (x * 100) : ℚ) / 100

/-- utils.to_sexagesimal (utils.py lines 47-63).
Python:
  dec_part, int_part = modf(dec_coord)
  coord.deg = int(int_part)
  coord.min = abs(int(modf(dec_part * 60)[1]))
  coord.sec = abs(round(modf(dec_part * 60)[0] * 60, 2))
Here dec_part = dec_coord - truncQ dec_coord, and modf(y)[1] = truncQ y,
modf(y)[0] = y - truncQ y. -/
def to_sexagesimal (dec_coord : ℚ) : Sexagesimal :=
  { deg := truncQ dec_coord
  , min := |truncQ ((dec_coord - truncQ dec_coord) * 60)|
  , sec := |round2 (((dec_coord - truncQ dec_coord) * 60
              - truncQ ((dec_coord - truncQ dec_coord) * 60)) * 60)| }

/-- block.py, class Block.  The fields image, northern_block and
eastern_block are omitted: the image is only written by the fetch
orchestrator (an external collaborator), and the neighbour pointers are
only used as return values of set_northern_block and set_eastern_block,
which are modelled below as functions returning the new block. -/
structure Block where
  bl_point : GeoPoint
  tr_point : GeoPoint
  resolution : ℚ
  scale : ℚ
  x : ℤ
  y : ℤ
  width : ℚ
  height : ℚ
deriving DecidableEq, Repr

/-- Derived bottom-right corner, as computed in Block.__init__ (line 47):
br_point = Point(bl_point.latitude, tr_point.longitude). -/
def Block.br_point (b : Block) : GeoPoint := ⟨b.bl_point.latitude, b.tr_point.longitude⟩

/-- Block.__init__ (block.py lines 45-63).  Raising BlockException is
modelled as none.  The code first checks the pixel bounds, then checks
  self.bl_point.longitude > self.br_point.longitude
    or self.bl_point.latitude > self.br_point.latitude
where br_point = Point(bl_point.latitude, tr_point.longitude); that check
is reproduced verbatim here (note that its latitude disjunct compares
bl_point.latitude with itself).  The Python default arguments are
width=2048, height=2048; callers below pass the defaults explicitly. -/
def Block.make (bl_point tr_point : GeoPoint) (resolution scale : ℚ) (x y : ℤ)
    (width height : ℚ) : Option Block :=
  let br_point : GeoPoint := ⟨bl_point.latitude, tr_point.longitude⟩
  if width > 2048 ∨ height > 2048 then none
  else if bl_point.longitude > br_point.longitude ∨ bl_point.latitude > br_point.latitude then
    none
  else some ⟨bl_point, tr_point, resolution, scale, x, y, width, height⟩

/-- Block.set_width (block.py lines 202-215). -/
def Block.set_width (b : Block) (width : ℚ) : Option Block :=
  if width > 2048 then none else some { b with width := width }

/-- Block.set_height (block.py lines 217-230). -/
def Block.set_height (b : Block) (height : ℚ) : Option Block :=
  if height > 2048 then none else some { b with height := height }

/-- Block.get_dots (block.py lines 181-200).  The geodesic distance
collaborator geopy.distance.distance(.).km is the parameter dist. -/
def Block.get_dots (dist : GeoPoint → GeoPoint → ℚ) (b : Block)
    (coord1 coord2 : GeoPoint) : ℤ :=
  let km := dist coord1 coord2
  let cm_on_map := km * 100000 / b.scale
  let inches_on_map := cm_on_map / 2.54
  ⌊b.resolution * inches_on_map⌋

/-- Block.set_northern_block (block.py lines 147-162).  The caught
BlockException followed by sys.exit(1) is modelled as none. -/
def Block.set_northern_block (dist : GeoPoint → GeoPoint → ℚ) (b : Block)
    (lat : ℚ) (last : Bool) : Option Block :=
  let bl_point_ntblock : GeoPoint := ⟨b.tr_point.latitude, b.bl_point.longitude⟩
  let tr_point_ntblock : GeoPoint := ⟨b.tr_point.latitude + lat, b.tr_point.longitude⟩
  match Block.make bl_point_ntblock tr_point_ntblock b.resolution b.scale b.x (b.y + 1)
      2048 2048 with
  | none => none
  | some nt =>
    match nt.set_width b.width with
    | none => none
    | some nt =>
      if last then nt.set_height (Block.get_dots dist nt nt.br_point nt.tr_point : ℤ)
      else some nt

/-- Block.set_eastern_block (block.py lines 164-179). -/
def Block.set_eastern_block (dist : GeoPoint → GeoPoint → ℚ) (b : Block)
    (long : ℚ) (last : Bool) : Option Block :=
  let bl_point_etblock : GeoPoint := ⟨b.bl_point.latitude, b.tr_point.longitude⟩
  let tr_point_etblock : GeoPoint := ⟨b.tr_point.latitude, b.tr_point.longitude + long⟩
  match Block.make bl_point_etblock tr_point_etblock b.resolution b.scale (b.x + 1) b.y
      2048 2048 with
  | none => none
  | some et =>
    match et.set_height b.height with
    | none => none
    | some et =>
      if last then et.set_width (Block.get_dots dist et et.bl_point et.br_point : ℤ)
      else some et

/-- map.py, class Map.  Only the attributes read by the modelled methods
are kept: the frame/extent bookkeeping attributes of Map.__init__ are
written but never read by set_blocks, check_blocks_consistency or
get_interval_list. -/
structure MapData where
  bl_point : GeoPoint
  tr_point : GeoPoint
  resolution : ℚ
  scale : ℚ
deriving DecidableEq, Repr

/-- tl_point = Point(tr_point.latitude, bl_point.longitude) (map.py line 52). -/
def MapData.tl_point (m : MapData) : GeoPoint := ⟨m.tr_point.latitude, m.bl_point.longitude⟩

/-- br_point = Point(bl_point.latitude, tr_point.longitude) (map.py line 53). -/
def MapData.br_point (m : MapData) : GeoPoint := ⟨m.bl_point.latitude, m.tr_point.longitude⟩

/-- Map.get_max_block (map.py lines 94-128), returning the pair
(max_block.latitude, max_block.longitude).  The geodesic destination
collaborator self.geodesic_obj.destination(point, bearing, km) is the
parameter dest. -/
def MapData.get_max_block (dest : GeoPoint → ℚ → ℚ → GeoPoint) (m : MapData) : ℚ × ℚ :=
  let inches := 2048 / m.resolution
  let centimeters := inches * 2.54
  let kilometers := centimeters * m.scale / 100000
  let max_tl_point := dest m.bl_point 0 kilometers
  let lat :=
    if max_tl_point.latitude ≤ m.tl_point.latitude then
      max_tl_point.latitude - m.bl_point.latitude
    else m.tl_point.latitude - m.bl_point.latitude
  let max_br_point := dest m.bl_point 90 kilometers
  let long :=
    if max_br_point.longitude ≤ m.br_point.longitude then
      max_br_point.longitude - m.bl_point.longitude
    else m.br_point.longitude - m.bl_point.longitude
  (lat, long)

/-- Map.get_first_block (map.py lines 130-133). -/
def MapData.get_first_block (m : MapData) (lat long : ℚ) : Option Block :=
  Block.make m.bl_point
    ⟨m.bl_point.latitude + lat, m.bl_point.longitude + long⟩
    m.resolution m.scale 0 0 2048 2048

/-- The inner while loop of Map.set_blocks (map.py lines 184-202), which
builds one column northward from its first block.  Arguments mirror the
loop state: column_block, next_block_starting_latitude,
next_block_ending_latitude.  Returns the list of blocks appended to the
column and the sum of their heights (the code adds those heights to
self.height only when processing column 0).  The fuel argument makes the
loop a total function; a run of the loop that does not terminate (or
exits the process) is modelled as none. -/
def MapData.set_blocks_column (dist : GeoPoint → GeoPoint → ℚ) (m : MapData) (lat : ℚ) :
    ℕ → Block → ℚ → ℚ → Option (List Block × ℚ)
  | 0, _, _, _ => none
  | fuel + 1, column_block, next_start, next_end =>
    if next_start < m.tr_point.latitude then
      match (if next_end ≤ m.tr_point.latitude then
               column_block.set_northern_block dist lat false
             else
               column_block.set_northern_block dist (m.tr_point.latitude - next_start) true) with
      | none => none
      | some nb =>
        match MapData.set_blocks_column dist m lat fuel nb next_end (next_end + lat) with
        | none => none
        | some (rest, hsum) => some (nb :: rest, nb.height + hsum)
    else some ([], 0)

/-- The outer while loop of Map.set_blocks (map.py lines 159-206) from its
second iteration onward (i >= 1): each iteration derives the eastern
first block of a new column and then builds that column northward.
Arguments mirror the loop state: column_first_block,
block_starting_longitude, block_ending_longitude.  Returns the list of
new columns and the sum of the column-first-block widths (the code adds
those widths to self.width). -/
def MapData.set_blocks_columns (dist : GeoPoint → GeoPoint → ℚ) (m : MapData) (lat long : ℚ) :
    ℕ → Block → ℚ → ℚ → Option (List (List Block) × ℚ)
  | 0, _, _, _ => none
  | fuel + 1, column_first_block, block_starting, block_ending =>
    if block_starting < m.tr_point.longitude then
      match (if block_ending ≤ m.tr_point.longitude then
               column_first_block.set_eastern_block dist long false
             else
               column_first_block.set_eastern_block dist
                 (m.tr_point.longitude - block_starting) true) with
      | none => none
      | some nfb =>
        match MapData.set_blocks_column dist m lat (fuel + 1) nfb
            nfb.tr_point.latitude (nfb.tr_point.latitude + lat) with
        | none => none
        | some (colrest, _) =>
          match MapData.set_blocks_columns dist m lat long fuel nfb block_ending
              (block_ending + long) with
          | none => none
          | some (cols, wsum) => some ((nfb :: colrest) :: cols, nfb.width + wsum)
    else some ([], 0)

/-- The result of Map.set_blocks: the populated self.blocks together with
the accumulated self.width and self.height. -/
structure GridState where
  blocks : List (List Block)
  width : ℚ
  height : ℚ
deriving DecidableEq, Repr

/-- Map.set_blocks (map.py lines 135-208), without the trailing
fetch_blocks_concurrently call (network IO by the fetch orchestrator,
which does not modify the grid geometry).  The first iteration of the
outer while loop (i = 0, which skips the eastern-block derivation) is
laid out before set_blocks_columns, exactly as the loop executes it. -/
def MapData.set_blocks (dist : GeoPoint → GeoPoint → ℚ) (dest : GeoPoint → ℚ → ℚ → GeoPoint)
    (m : MapData) (fuel : ℕ) : Option GridState :=
  let max_block := m.get_max_block dest
  let lat := max_block.1
  let long := max_block.2
  match m.get_first_block lat long with
  | none => none
  | some b00 =>
    let block_starting := b00.bl_point.longitude
    let block_ending := block_starting + long
    if block_starting < m.tr_point.longitude then
      match MapData.set_blocks_column dist m lat fuel b00
          b00.tr_point.latitude (b00.tr_point.latitude + lat) with
      | none => none
      | some (col0rest, hsum) =>
        match MapData.set_blocks_columns dist m lat long fuel b00 block_ending
            (block_ending + long) with
        | none => none
        | some (cols, wsum) =>
          some ⟨(b00 :: col0rest) :: cols, b00.width + wsum, b00.height + hsum⟩
    else some ⟨[[b00]], b00.width, b00.height⟩

/-- The last block visited by the double for loop of
Map.check_blocks_consistency (map.py lines 246-249). -/
def last_visited (blocks : List (List Block)) : Option Block :=
  blocks.foldl (fun acc col => col.foldl (fun _ b => some b) acc) none

/-- Map.check_blocks_consistency (map.py lines 245-253): some true means
the MapException is raised, some false means the check passes.  none
corresponds to an empty grid, where the Python code would fail on the
integer placeholder j = 0 before reaching the comparison. -/
def check_blocks_consistency (blocks : List (List Block)) (tr_point : GeoPoint) :
    Option Bool :=
  (last_visited blocks).map (fun j =>
    decide (j.tr_point.longitude ≠ tr_point.longitude ∨
            j.tr_point.latitude ≠ tr_point.latitude))

/-- The building of latitude_list and longitude_list in
Map.get_interval_list (map.py lines 366-380), shared between the two
edges.  a is the sexagesimal form of the bottom/left corner coordinate, b
of the top/right one.  range(a.min + 1, b.min) contributes
(b.min - a.min - 1) sixty-second intervals (none when that is negative,
as Int.toNat clamps). -/
def interval_secs (a b : Sexagesimal) : List ℚ :=
  (if a.sec ≠ 0 then [a.sec] else [60]) ++
  List.replicate (b.min - a.min - 1).toNat 60 ++
  (if b.sec ≠ 0 then [b.sec] else [0])

/-- latitude_list of Map.get_interval_list: from bl_point.latitude to
tl_point.latitude. -/
def MapData.latitude_list (m : MapData) : List ℚ :=
  interval_secs (to_sexagesimal m.bl_point.latitude) (to_sexagesimal m.tl_point.latitude)

/-- longitude_list of Map.get_interval_list: from bl_point.longitude to
br_point.longitude. -/
def MapData.longitude_list (m : MapData) : List ℚ :=
  interval_secs (to_sexagesimal m.bl_point.longitude) (to_sexagesimal m.br_point.longitude)

/-- Map.get_interval_list (map.py lines 347-389): converts the two
seconds lists into pixel lists proportionally to the assembled image
height and width (attributes self.height and self.width, passed here as
arguments). -/
def MapData.get_interval_list (m : MapData) (height width : ℚ) : List ℤ × List ℤ :=
  ((m.latitude_list).map (fun i => round (height * i / (m.latitude_list).sum)),
   (m.longitude_list).map (fun i => round (width * i / (m.longitude_list).sum)))

/-! Definitions taken from the words of the specification, for comparison
with the definitions embedded from the source. -/

/-- Modelled from the spec, section 4.2: maxPixelDimension(coord1, coord2)
= floor(resolution_dpi x (distanceKm(coord1, coord2) x 100000 / scale)
/ 2.54).  To be compared with Block.get_dots. -/
def maxPixelDimension_spec (dist : GeoPoint → GeoPoint → ℚ) (b : Block)
    (coord1 coord2 : GeoPoint) : ℤ :=
  ⌊b.resolution * (dist coord1 coord2 * 100000 / b.scale) / 2.54⌋

/-- Modelled from the spec, section 8: the reconstruction of a decimal
degree value from its sexagesimal form, deg + min/60 + sec/3600 with the
sign adjusted (for a negative input the minute and second contributions
are subtracted, since deg carries the sign but min and sec are absolute
values). -/
def reconstruct (d : ℚ) : ℚ :=
  if 0 ≤ d then
    ((to_sexagesimal d).deg : ℚ) + ((to_sexagesimal d).min : ℚ) / 60 +
      (to_sexagesimal d).sec / 3600
  else
    ((to_sexagesimal d).deg : ℚ) - ((to_sexagesimal d).min : ℚ) / 60 -
      (to_sexagesimal d).sec / 3600

/-- Modelled from the spec, section 4.6: the per-edge ruler interval list
is a possibly-partial first interval (the fractional seconds at the
bottom/left edge, recorded as 60 when zero), one 60-second interval per
whole minute crossed between the two edge coordinates, and a
possibly-partial final interval (the fractional seconds at the top/right
edge, recorded as 0 when zero).  The number of whole minutes crossed
between coordinates x and y, that is the number of integers k with
60x ≤ k and k + 1 ≤ 60y, is ⌊60y⌋ - ⌈60x⌉. -/
def spec_interval_list (x y : ℚ) : List ℚ :=
  (if (to_sexagesimal x).sec ≠ 0 then [(to_sexagesimal x).sec] else [60]) ++
  List.replicate (⌊y * 60⌋ - ⌈x * 60⌉).toNat 60 ++
  (if (to_sexagesimal y).sec ≠ 0 then [(to_sexagesimal y).sec] else [0])

/-! Concrete instantiations of the external collaborators and of the map
request, used by the witnesses below. -/

/-- A concrete geodesic distance collaborator: every pair of points is
one kilometre apart. -/
def dist0 : GeoPoint → GeoPoint → ℚ := fun _ _ => 1

/-- A concrete geodesic destination collaborator: bearing 0 moves one
degree north, any other bearing one degree east, whatever the distance. -/
def dest0 : GeoPoint → ℚ → ℚ → GeoPoint := fun origin bearing _ =>
  if bearing = 0 then ⟨origin.latitude + 1, origin.longitude⟩
  else ⟨origin.latitude, origin.longitude + 1⟩

/-- A map request spanning one and a half max blocks in each direction:
the grid builder produces a 2 x 2 grid for it. -/
def m0 : MapData := ⟨⟨0, 0⟩, ⟨3/2, 3/2⟩, 1, 100000⟩

/-- The grid state Map.set_blocks builds for m0 with the collaborators
dist0 and dest0 (the boundary blocks get pixel dimension
⌊1 * (1 * 100000 / 100000) / 2.54⌋ = 0 from get_dots under dist0). -/
def stW : GridState :=
  ⟨[[⟨⟨0, 0⟩, ⟨1, 1⟩, 1, 100000, 0, 0, 2048, 2048⟩,
     ⟨⟨1, 0⟩, ⟨3/2, 1⟩, 1, 100000, 0, 1, 2048, 0⟩],
    [⟨⟨0, 1⟩, ⟨1, 3/2⟩, 1, 100000, 1, 0, 0, 2048⟩,
     ⟨⟨1, 1⟩, ⟨3/2, 3/2⟩, 1, 100000, 1, 1, 0, 0⟩]],
   2048, 2048⟩

/-- A map request whose geographic extent is half a max block in each
direction, so get_max_block clips both deltas to the box extents and the
grid builder produces a single block. -/
def m2 : MapData := ⟨⟨0, 0⟩, ⟨1/2, 1/2⟩, 1, 100000⟩

/-- The single block Map.set_blocks builds for m2: it keeps the
constructor default pixel dimensions 2048 x 2048. -/
def blk2 : Block := ⟨⟨0, 0⟩, ⟨1/2, 1/2⟩, 1, 100000, 0, 0, 2048, 2048⟩

/-- A bounding box crossing a degree boundary in both coordinates:
latitudes from 42 degrees 59 minutes 30 seconds to 43 degrees 1 minute
30 seconds (and longitudes alike). -/
def m6 : MapData := ⟨⟨42 + 119/120, 12 + 119/120⟩, ⟨43 + 3/120, 13 + 3/120⟩, 200, 25000⟩

/-- A bounding box inside a single degree in both coordinates, not
starting on an exact minute: from 42 degrees 30 minutes 30 seconds to 42
degrees 33 minutes 30 seconds (and longitudes alike). -/
def m6w : MapData := ⟨⟨42 + 61/120, 12 + 61/120⟩, ⟨42 + 67/120, 12 + 67/120⟩, 200, 25000⟩

/-- An arbitrary concrete block for exercising set_width and set_height. -/
def blkW : Block := ⟨⟨5, 5⟩, ⟨6, 6⟩, 200, 25000, 0, 0, 100, 100⟩

-- Basic facts about truncation toward zero.

theorem truncQ_of_nonneg {x : ℚ} (h : 0 ≤ x) : truncQ x = ⌊x⌋ := if_pos h

theorem truncQ_of_neg {x : ℚ} (h : x < 0) : truncQ x = ⌈x⌉ := if_neg (not_le.mpr h)

theorem sub_truncQ_nonneg {x : ℚ} (h : 0 ≤ x) : 0 ≤ x - truncQ x := by
  rw [truncQ_of_nonneg h]
  have := Int.floor_le x
  linarith

theorem sub_truncQ_nonpos {x : ℚ} (h : x ≤ 0) : x - truncQ x ≤ 0 := by
  rcases lt_or_eq_of_le h with h' | h'
  · rw [truncQ_of_neg h']
    have := Int.le_ceil x
    linarith
  · subst h'
    simp [truncQ]

theorem sub_truncQ_lt_one (x : ℚ) : x - truncQ x < 1 := by
  unfold truncQ
  split
  · have := Int.lt_floor_add_one x
    linarith
  · have := Int.le_ceil x
    linarith

theorem neg_one_lt_sub_truncQ (x : ℚ) : -1 < x - truncQ x := by
  unfold truncQ
  split
  · have := Int.floor_le x
    linarith
  · have := Int.ceil_lt_add_one x
    linarith

theorem truncQ_nonneg {x : ℚ} (h : 0 ≤ x) : 0 ≤ truncQ x := by
  rw [truncQ_of_nonneg h]
  exact Int.floor_nonneg.mpr h

theorem truncQ_nonpos {x : ℚ} (h : x ≤ 0) : truncQ x ≤ 0 := by
  rcases lt_or_eq_of_le h with h' | h'
  · rw [truncQ_of_neg h']
    exact Int.ceil_le.mpr (by exact_mod_cast h)
  · subst h'
    simp [truncQ]

/-- The rounding error of round2 is at most half of one hundredth. -/
theorem abs_round2_sub_le (x : ℚ) : |round2 x - x| ≤ 1 / 200 := by
  unfold round2
  have h := abs_sub_round (x * 100)
  rw [abs_sub_comm] at h
  have h100 : |(100 : ℚ)| = 100 := by norm_num
  calc |(round (x * 100) : ℚ) / 100 - x|
      = |((round (x * 100) : ℚ) - x * 100) / 100| := by ring_nf
    _ = |(round (x * 100) : ℚ) - x * 100| / 100 := by rw [abs_div, h100]
    _ ≤ (1 / 2) / 100 := by gcongr
    _ = 1 / 200 := by norm_num


theorem round2_nonneg {z : ℚ} (h : 0 ≤ z) : 0 ≤ round2 z := by
  unfold round2
  have h1 : (0 : ℤ) ≤ round (z * 100) := by
    rw [round_eq]
    exact Int.floor_nonneg.mpr (by linarith)
  have h2 : (0 : ℚ) ≤ (round (z * 100) : ℚ) := by exact_mod_cast h1
  linarith

theorem round2_nonpos {z : ℚ} (h : z ≤ 0) : round2 z ≤ 0 := by
  unfold round2
  have h1 : round (z * 100) ≤ 0 := by
    rw [round_eq]
    have : ⌊z * 100 + 1 / 2⌋ < 1 := Int.floor_lt.mpr (by push_cast; linarith)
    omega
  have h2 : (round (z * 100) : ℚ) ≤ 0 := by exact_mod_cast h1
  linarith

theorem abs_round2_le_sixty {z : ℚ} (h1 : -60 < z) (h2 : z < 60) : |round2 z| ≤ 60 := by
  unfold round2
  have hup : round (z * 100) ≤ 6000 := by
    rw [round_eq]
    have : ⌊z * 100 + 1 / 2⌋ < 6001 := Int.floor_lt.mpr (by push_cast; linarith)
    omega
  have hdown : -6000 ≤ round (z * 100) := by
    rw [round_eq]
    exact Int.le_floor.mpr (by push_cast; linarith)
  rw [abs_le]
  constructor
  · have : (-6000 : ℚ) ≤ (round (z * 100) : ℚ) := by exact_mod_cast hdown
    linarith
  · have : ((round (z * 100) : ℚ)) ≤ 6000 := by exact_mod_cast hup
    linarith

theorem abs_truncQ_le_fiftynine {y : ℚ} (h1 : -60 < y) (h2 : y < 60) :
    |truncQ y| ≤ 59 := by
  unfold truncQ
  split
  · rw [abs_of_nonneg (Int.floor_nonneg.mpr (by assumption))]
    have : ⌊y⌋ < 60 := Int.floor_lt.mpr (by exact_mod_cast h2)
    omega
  · rw [abs_of_nonpos (Int.ceil_le.mpr (by push_cast; linarith))]
    have : -60 < ⌈y⌉ := Int.lt_ceil.mpr (by exact_mod_cast h1)
    omega

/-- Claim C4: for every pair of coordinates, Block.get_dots returns
floor(resolution x (distanceKm(coord1, coord2) x 100000 / scale) / 2.54),
the formula the spec gives for maxPixelDimension. -/
theorem C4_get_dots_is_spec_formula (dist : GeoPoint → GeoPoint → ℚ) (b : Block)
    (coord1 coord2 : GeoPoint) :
    Block.get_dots dist b coord1 coord2 = maxPixelDimension_spec dist b coord1 coord2 := by
  simp only [Block.get_dots, maxPixelDimension_spec]
  congr 1
  ring

/-- Claim C3 (code_bug evidence): a block whose bottom-left latitude lies
above its top-right latitude is constructed without error, because the
ordering check of Block.__init__ compares bl_point.latitude against
br_point.latitude, which is defined as bl_point.latitude itself.  The two
width scenarios of the claim do hold: width 2049 is rejected, width 2048
accepted. -/
theorem C3_latitude_check_never_fires :
    (Block.make ⟨50, 10⟩ ⟨40, 20⟩ 200 25000 0 0 2048 2048).isSome = true ∧
    Block.make ⟨40, 10⟩ ⟨50, 20⟩ 200 25000 0 0 2049 2048 = none ∧
    (Block.make ⟨40, 10⟩ ⟨50, 20⟩ 200 25000 0 0 2048 2048).isSome = true := by
  decide

/-- Claim C9: Block.set_width, Block.set_height and the width and height
arguments of the Block constructor enforce only the upper bound 2048;
every value at or below it, zero and negative values included, is stored
unchanged, and BlockException is raised exactly above 2048. -/
theorem C9_only_upper_bound_checked (b : Block) (v : ℚ) (bl tr : GeoPoint)
    (res sc : ℚ) (x y : ℤ) (w h : ℚ) :
    (v ≤ 2048 → b.set_width v = some { b with width := v } ∧
                b.set_height v = some { b with height := v }) ∧
    (2048 < v → b.set_width v = none ∧ b.set_height v = none) ∧
    (w ≤ 2048 → h ≤ 2048 → ¬ bl.longitude > tr.longitude →
      Block.make bl tr res sc x y w h = some ⟨bl, tr, res, sc, x, y, w, h⟩) ∧
    (2048 < w ∨ 2048 < h → Block.make bl tr res sc x y w h = none) := by
  refine ⟨fun hv => ⟨?_, ?_⟩, fun hv => ⟨?_, ?_⟩, fun hw hh hbox => ?_, fun hwh => ?_⟩
  · rw [Block.set_width, if_neg (not_lt.mpr hv)]
  · rw [Block.set_height, if_neg (not_lt.mpr hv)]
  · rw [Block.set_width, if_pos hv]
  · rw [Block.set_height, if_pos hv]
  · rw [Block.make]
    rw [if_neg (by push_neg; exact ⟨hw, hh⟩)]
    rw [if_neg (by push_neg; exact ⟨not_lt.mp hbox, le_refl _⟩)]
  · rw [Block.make, if_pos hwh]

/-- Witness for C9 at negative and zero dimensions: set_width stores -5,
and the constructor accepts width 0 and height -3. -/
theorem C9_only_upper_bound_checked_witness :
    Block.set_width blkW (-5) = some { blkW with width := -5 } ∧
    Block.make ⟨1, 1⟩ ⟨2, 2⟩ 200 25000 0 0 0 (-3) =
      some ⟨⟨1, 1⟩, ⟨2, 2⟩, 200, 25000, 0, 0, 0, -3⟩ := by
  constructor
  · exact ((C9_only_upper_bound_checked blkW (-5) ⟨1, 1⟩ ⟨2, 2⟩ 200 25000 0 0 0 (-3)).1
      (by norm_num)).1
  · exact (C9_only_upper_bound_checked blkW (-5) ⟨1, 1⟩ ⟨2, 2⟩ 200 25000 0 0 0
      (-3)).2.2.1 (by norm_num) (by norm_num) (by norm_num)

/-- Counterexample to claim C7: at 0.9999999 degrees the fractional
seconds are 59.99964, which round to exactly 60.00, outside the claimed
0 to 59.99 range. -/
theorem C7_seconds_reach_sixty :
    (to_sexagesimal (9999999/10000000)).sec = 60 ∧
    ¬ (to_sexagesimal (9999999/10000000)).sec ≤ 59.99 := by
  norm_num [to_sexagesimal, truncQ, round2, round_eq]

/-- Claim C7 as amended: for every decimal-degree input the sexagesimal
form has degrees equal to the truncated signed integer part, minutes in
0 to 59, and seconds in 0 to 60 (60.00 included: the two-decimal rounding
can carry the seconds of an input just below a whole minute up to 60). -/
theorem C7_sexagesimal_ranges_amended (d : ℚ) :
    (to_sexagesimal d).deg = truncQ d ∧
    0 ≤ (to_sexagesimal d).min ∧ (to_sexagesimal d).min ≤ 59 ∧
    0 ≤ (to_sexagesimal d).sec ∧ (to_sexagesimal d).sec ≤ 60 := by
  have he1 : -1 < d - truncQ d := neg_one_lt_sub_truncQ d
  have he2 : d - truncQ d < 1 := sub_truncQ_lt_one d
  have hy1 : -60 < (d - truncQ d) * 60 := by linarith
  have hy2 : (d - truncQ d) * 60 < 60 := by linarith
  have hf1 : -1 < (d - truncQ d) * 60 - truncQ ((d - truncQ d) * 60) :=
    neg_one_lt_sub_truncQ _
  have hf2 : (d - truncQ d) * 60 - truncQ ((d - truncQ d) * 60) < 1 :=
    sub_truncQ_lt_one _
  refine ⟨rfl, abs_nonneg _, ?_, abs_nonneg _, ?_⟩
  · exact abs_truncQ_le_fiftynine hy1 hy2
  · exact abs_round2_le_sixty (by linarith) (by linarith)

/-- Claim C5: converting a decimal-degree value with to_sexagesimal and
reconstructing it as deg + min/60 + sec/3600 with the sign adjusted
reproduces the value within 1/10000 of a degree (the only loss is the
two-decimal rounding of the seconds, at most 1/200 of a second). -/
theorem C5_sexagesimal_roundtrip (d : ℚ) : |reconstruct d - d| ≤ 1 / 10000 := by
  rcases le_or_lt 0 d with hd | hd
  · have he : (0 : ℚ) ≤ d - truncQ d := sub_truncQ_nonneg hd
    have hy : (0 : ℚ) ≤ (d - truncQ d) * 60 := by linarith
    have ht : 0 ≤ truncQ ((d - truncQ d) * 60) := truncQ_nonneg hy
    have hfr : (0 : ℚ) ≤ (d - truncQ d) * 60 - truncQ ((d - truncQ d) * 60) :=
      sub_truncQ_nonneg hy
    have hz : (0 : ℚ) ≤ ((d - truncQ d) * 60 - truncQ ((d - truncQ d) * 60)) * 60 := by
      linarith
    rw [reconstruct, if_pos hd]
    simp only [to_sexagesimal]
    rw [abs_of_nonneg ht, abs_of_nonneg (round2_nonneg hz)]
    have key : ((truncQ d : ℚ) + (truncQ ((d - truncQ d) * 60) : ℚ) / 60 +
        round2 (((d - truncQ d) * 60 - truncQ ((d - truncQ d) * 60)) * 60) / 3600) - d =
        (round2 (((d - truncQ d) * 60 - truncQ ((d - truncQ d) * 60)) * 60) -
          ((d - truncQ d) * 60 - truncQ ((d - truncQ d) * 60)) * 60) / 3600 := by
      ring
    rw [key, abs_div, abs_of_pos (by norm_num : (0:ℚ) < 3600)]
    have hb := abs_round2_sub_le (((d - truncQ d) * 60 - truncQ ((d - truncQ d) * 60)) * 60)
    rw [div_le_iff₀ (by norm_num : (0:ℚ) < 3600)]
    calc |round2 (((d - truncQ d) * 60 - truncQ ((d - truncQ d) * 60)) * 60) -
          ((d - truncQ d) * 60 - truncQ ((d - truncQ d) * 60)) * 60|
        ≤ 1 / 200 := hb
      _ ≤ 1 / 10000 * 3600 := by norm_num
  · have he : d - truncQ d ≤ 0 := sub_truncQ_nonpos hd.le
    have hy : (d - truncQ d) * 60 ≤ 0 := by linarith
    have ht : truncQ ((d - truncQ d) * 60) ≤ 0 := truncQ_nonpos hy
    have hfr : (d - truncQ d) * 60 - truncQ ((d - truncQ d) * 60) ≤ 0 :=
      sub_truncQ_nonpos hy
    have hz : ((d - truncQ d) * 60 - truncQ ((d - truncQ d) * 60)) * 60 ≤ 0 := by
      linarith
    rw [reconstruct, if_neg (not_le.mpr hd)]
    simp only [to_sexagesimal]
    rw [abs_of_nonpos ht, abs_of_nonpos (round2_nonpos hz)]
    have key : ((truncQ d : ℚ) - (-(truncQ ((d - truncQ d) * 60)) : ℤ) / 60 -
        (-round2 (((d - truncQ d) * 60 - truncQ ((d - truncQ d) * 60)) * 60)) / 3600) - d =
        (round2 (((d - truncQ d) * 60 - truncQ ((d - truncQ d) * 60)) * 60) -
          ((d - truncQ d) * 60 - truncQ ((d - truncQ d) * 60)) * 60) / 3600 := by
      push_cast
      ring
    rw [key, abs_div, abs_of_pos (by norm_num : (0:ℚ) < 3600)]
    have hb := abs_round2_sub_le (((d - truncQ d) * 60 - truncQ ((d - truncQ d) * 60)) * 60)
    rw [div_le_iff₀ (by norm_num : (0:ℚ) < 3600)]
    calc |round2 (((d - truncQ d) * 60 - truncQ ((d - truncQ d) * 60)) * 60) -
          ((d - truncQ d) * 60 - truncQ ((d - truncQ d) * 60)) * 60|
        ≤ 1 / 200 := hb
      _ ≤ 1 / 10000 * 3600 := by norm_num

theorem sum_map_round_sub_le (xs : List ℚ) :
    |(xs.map (fun x => (round x : ℚ))).sum - xs.sum| ≤ (xs.length : ℚ) / 2 := by
  induction xs with
  | nil => simp
  | cons a t ih =>
    simp only [List.map_cons, List.sum_cons, List.length_cons]
    have h1 : |(round a : ℚ) - a| ≤ 1 / 2 := by
      rw [abs_sub_comm]
      exact abs_sub_round a
    have h2 : (round a : ℚ) + (t.map fun x => (round x : ℚ)).sum - (a + t.sum) =
        ((round a : ℚ) - a) + ((t.map fun x => (round x : ℚ)).sum - t.sum) := by
      ring
    rw [h2]
    push_cast
    calc |((round a : ℚ) - a) + ((t.map fun x => (round x : ℚ)).sum - t.sum)|
        ≤ |(round a : ℚ) - a| + |(t.map fun x => (round x : ℚ)).sum - t.sum| := abs_add _ _
      _ ≤ 1 / 2 + (t.length : ℚ) / 2 := add_le_add h1 ih
      _ = ((t.length : ℚ) + 1) / 2 := by ring

theorem sum_map_div_total (l : List ℚ) (h : ℚ) (hS : l.sum ≠ 0) :
    (l.map (fun i => h * i / l.sum)).sum = h := by
  have h1 : (fun i => h * i / l.sum) = fun i => (h / l.sum) * i := by
    funext i
    ring
  have h2 : ∀ (c : ℚ) (xs : List ℚ), (xs.map (fun i => c * i)).sum = c * xs.sum := by
    intro c xs
    induction xs with
    | nil => simp
    | cons a t ih => simp [ih, mul_add]
  rw [h1, h2, div_mul_cancel₀ _ hS]

theorem to_sexagesimal_sec_nonneg (x : ℚ) : 0 ≤ (to_sexagesimal x).sec := abs_nonneg _

theorem interval_secs_sum_pos (a b : Sexagesimal) (ha : 0 ≤ a.sec) (hb : 0 ≤ b.sec) :
    0 < (interval_secs a b).sum := by
  unfold interval_secs
  rw [List.sum_append, List.sum_append]
  have hrep : (0 : ℚ) ≤ (List.replicate (b.min - a.min - 1).toNat (60 : ℚ)).sum := by
    simp only [List.sum_replicate, nsmul_eq_mul]
    positivity
  have hlast : (0 : ℚ) ≤ (if b.sec ≠ 0 then [b.sec] else [(0 : ℚ)]).sum := by
    split <;> simp [*]
  have hfirst : (0 : ℚ) < (if a.sec ≠ 0 then [a.sec] else [(60 : ℚ)]).sum := by
    split
    · rename_i hne
      simpa using lt_of_le_of_ne ha (Ne.symm hne)
    · norm_num
  linarith

theorem cast_sum_map (f : ℚ → ℤ) (l : List ℚ) :
    (((l.map f).sum : ℤ) : ℚ) = (l.map (fun x => ((f x : ℤ) : ℚ))).sum := by
  induction l with
  | nil => simp
  | cons a t ih =>
    simp only [List.map_cons, List.sum_cons, Int.cast_add, ih]

theorem pixel_list_sum_close (l : List ℚ) (h : ℚ) (hS : 0 < l.sum) :
    |(((l.map (fun i => round (h * i / l.sum))).sum : ℤ) : ℚ) - h| ≤ (l.length : ℚ) := by
  rw [cast_sum_map]
  have hmm : l.map (fun i => ((round (h * i / l.sum) : ℤ) : ℚ)) =
      (l.map (fun i => h * i / l.sum)).map (fun x => (round x : ℚ)) := by
    rw [List.map_map]
    rfl
  rw [hmm]
  have hb := sum_map_round_sub_le (l.map (fun i => h * i / l.sum))
  rw [sum_map_div_total l h hS.ne'] at hb
  simp only [List.length_map] at hb
  have hn : (0 : ℚ) ≤ (l.length : ℚ) := Nat.cast_nonneg _
  linarith

/-- Claim C8: for every bounding box and assembled image size, the pixel
lengths of the ruler intervals of each edge sum to the total pixel length
of that edge (the height for the latitude edge, the width for the
longitude edge) within at most the number of intervals (the proof gives
half of that, one half pixel of rounding per interval). -/
theorem C8_ruler_pixel_sums (m : MapData) (height width : ℚ) :
    |((((m.get_interval_list height width).1.sum : ℤ) : ℚ)) - height| ≤
      ((m.get_interval_list height width).1.length : ℚ) ∧
    |((((m.get_interval_list height width).2.sum : ℤ) : ℚ)) - width| ≤
      ((m.get_interval_list height width).2.length : ℚ) := by
  simp only [MapData.get_interval_list, List.length_map]
  constructor
  · exact pixel_list_sum_close (m.latitude_list) height
      (interval_secs_sum_pos _ _ (to_sexagesimal_sec_nonneg _) (to_sexagesimal_sec_nonneg _))
  · exact pixel_list_sum_close (m.longitude_list) width
      (interval_secs_sum_pos _ _ (to_sexagesimal_sec_nonneg _) (to_sexagesimal_sec_nonneg _))

theorem ceil_via_floor (r : ℚ) : ⌈r⌉ = -⌊-r⌋ := by
  conv_lhs => rw [← neg_neg r]
  rw [Int.ceil_neg]

theorem to_sexagesimal_min_of_nonneg {x : ℚ} (hx : 0 ≤ x) :
    (to_sexagesimal x).min = ⌊x * 60⌋ - 60 * ⌊x⌋ := by
  show |truncQ ((x - (truncQ x : ℚ)) * 60)| = _
  rw [truncQ_of_nonneg hx]
  have he : (0 : ℚ) ≤ x - ⌊x⌋ := by
    have := Int.floor_le x
    linarith
  rw [truncQ_of_nonneg (mul_nonneg he (by norm_num))]
  have h1 : (x - (⌊x⌋ : ℚ)) * 60 = x * 60 - ((60 * ⌊x⌋ : ℤ) : ℚ) := by
    push_cast
    ring
  rw [h1, Int.floor_sub_int]
  have h2 : (60 * ⌊x⌋ : ℤ) ≤ ⌊x * 60⌋ := by
    apply Int.le_floor.mpr
    have := Int.floor_le x
    push_cast
    linarith
  rw [abs_of_nonneg (by omega)]

theorem to_sexagesimal_sec_of_nonneg {x : ℚ} (hx : 0 ≤ x) :
    (to_sexagesimal x).sec = |round2 (Int.fract (x * 60) * 60)| := by
  show |round2 (((x - (truncQ x : ℚ)) * 60 - (truncQ ((x - (truncQ x : ℚ)) * 60) : ℚ)) * 60)| = _
  rw [truncQ_of_nonneg hx]
  have he : (0 : ℚ) ≤ x - ⌊x⌋ := by
    have := Int.floor_le x
    linarith
  rw [truncQ_of_nonneg (mul_nonneg he (by norm_num))]
  have h1 : (x - (⌊x⌋ : ℚ)) * 60 = x * 60 - ((60 * ⌊x⌋ : ℤ) : ℚ) := by
    push_cast
    ring
  rw [h1, Int.floor_sub_int, Int.fract]
  congr 1
  push_cast
  ring_nf

theorem ceil_eq_floor_add_one_of_fract_ne {r : ℚ} (h : Int.fract r ≠ 0) :
    ⌈r⌉ = ⌊r⌋ + 1 := by
  have h1 : ⌈r⌉ ≤ ⌊r⌋ + 1 := Int.ceil_le_floor_add_one r
  have h3 : (⌊r⌋ : ℚ) < r := by
    rcases lt_or_eq_of_le (Int.floor_le r) with h' | h'
    · exact h'
    · refine absurd ?_ h
      rw [Int.fract, ← h']
      simp
  have h4 : ⌊r⌋ < ⌈r⌉ := by
    have h5 := Int.le_ceil r
    exact_mod_cast lt_of_lt_of_le h3 h5
  omega

theorem sec_ne_zero_fract_ne {x : ℚ} (hx : 0 ≤ x) (hsec : (to_sexagesimal x).sec ≠ 0) :
    Int.fract (x * 60) ≠ 0 := by
  intro h0
  apply hsec
  rw [to_sexagesimal_sec_of_nonneg hx, h0]
  norm_num [round2]

theorem interval_secs_spec_eq {x y : ℚ} (hx : 0 ≤ x) (hxy : x ≤ y)
    (hdeg : (to_sexagesimal x).deg = (to_sexagesimal y).deg)
    (hsec : (to_sexagesimal x).sec ≠ 0) :
    interval_secs (to_sexagesimal x) (to_sexagesimal y) = spec_interval_list x y := by
  have hy : 0 ≤ y := le_trans hx hxy
  have hfl : ⌊x⌋ = ⌊y⌋ := by
    have h1 : (to_sexagesimal x).deg = ⌊x⌋ := by
      show truncQ x = ⌊x⌋
      exact truncQ_of_nonneg hx
    have h2 : (to_sexagesimal y).deg = ⌊y⌋ := by
      show truncQ y = ⌊y⌋
      exact truncQ_of_nonneg hy
    rw [h1, h2] at hdeg
    exact hdeg
  have hceil : ⌈x * 60⌉ = ⌊x * 60⌋ + 1 :=
    ceil_eq_floor_add_one_of_fract_ne (sec_ne_zero_fract_ne hx hsec)
  have hcount : (to_sexagesimal y).min - (to_sexagesimal x).min - 1 = ⌊y * 60⌋ - ⌈x * 60⌉ := by
    rw [to_sexagesimal_min_of_nonneg hx, to_sexagesimal_min_of_nonneg hy, hceil, hfl]
    omega
  unfold interval_secs spec_interval_list
  rw [hcount]

/-- Counterexample to claim C6: for the box m6, whose latitude edge runs
from 42 degrees 59 minutes 30 seconds to 43 degrees 1 minute 30 seconds,
exactly one whole minute (43 degrees 0 minutes to 43 degrees 1 minute) is
crossed, so the claim predicts the interval list [30, 60, 30]; the code
builds the middle intervals with range(bl.min + 1, tl.min) on the
within-degree minute fields 59 and 1, which is empty, and produces
[30, 30]. -/
theorem C6_degree_boundary_counterexample :
    MapData.latitude_list m6 = [30, 30] ∧
    spec_interval_list m6.bl_point.latitude m6.tl_point.latitude = [30, 60, 30] ∧
    MapData.latitude_list m6 ≠ spec_interval_list m6.bl_point.latitude m6.tl_point.latitude := by
  have h1 : MapData.latitude_list m6 = [30, 30] := by
    norm_num [MapData.latitude_list, MapData.tl_point, m6, interval_secs, to_sexagesimal,
      truncQ, round2, round_eq]
  have h2 : spec_interval_list m6.bl_point.latitude m6.tl_point.latitude = [30, 60, 30] := by
    norm_num [spec_interval_list, MapData.tl_point, m6, to_sexagesimal, truncQ, round2,
      round_eq, ceil_via_floor, List.replicate]
  refine ⟨h1, h2, ?_⟩
  rw [h1, h2]
  decide

/-- Claim C6 as amended: for a bounding box whose corners have nonnegative
coordinates, lie within a single degree on each edge (equal sexagesimal
degree fields), and whose bottom/left corner does not sit on an exact
minute boundary (nonzero seconds), the per-edge ruler interval lists of
getIntervalList are exactly as the claim describes: the fractional
seconds at the bottom/left edge (60 when zero), one 60-second interval
per whole minute crossed, and the fractional seconds at the top/right
edge (0 when zero).  Outside those restrictions the middle count
range(bl.min + 1, tl.min), taken on the within-degree minute fields,
differs from the number of whole minutes crossed, as the counterexample
shows for a degree-crossing box. -/
theorem C6_interval_structure_amended (m : MapData)
    (hlat0 : 0 ≤ m.bl_point.latitude)
    (hlat : m.bl_point.latitude ≤ m.tr_point.latitude)
    (hlatdeg : (to_sexagesimal m.bl_point.latitude).deg =
      (to_sexagesimal m.tl_point.latitude).deg)
    (hlatsec : (to_sexagesimal m.bl_point.latitude).sec ≠ 0)
    (hlong0 : 0 ≤ m.bl_point.longitude)
    (hlong : m.bl_point.longitude ≤ m.tr_point.longitude)
    (hlongdeg : (to_sexagesimal m.bl_point.longitude).deg =
      (to_sexagesimal m.br_point.longitude).deg)
    (hlongsec : (to_sexagesimal m.bl_point.longitude).sec ≠ 0) :
    m.latitude_list = spec_interval_list m.bl_point.latitude m.tl_point.latitude ∧
    m.longitude_list = spec_interval_list m.bl_point.longitude m.br_point.longitude := by
  constructor
  · exact interval_secs_spec_eq hlat0 hlat hlatdeg hlatsec
  · exact interval_secs_spec_eq hlong0 hlong hlongdeg hlongsec

/-- Witness for the amended C6 at the box m6w (42 degrees 30 minutes 30
seconds to 42 degrees 33 minutes 30 seconds on both edges). -/
theorem C6_interval_structure_amended_witness :
    MapData.latitude_list m6w = spec_interval_list m6w.bl_point.latitude m6w.tl_point.latitude ∧
    MapData.longitude_list m6w = spec_interval_list m6w.bl_point.longitude m6w.br_point.longitude :=
  C6_interval_structure_amended m6w
    (by norm_num [m6w])
    (by norm_num [m6w])
    (by norm_num [m6w, MapData.tl_point, to_sexagesimal, truncQ, round2, round_eq])
    (by norm_num [m6w, to_sexagesimal, truncQ, round2, round_eq])
    (by norm_num [m6w])
    (by norm_num [m6w])
    (by norm_num [m6w, MapData.br_point, to_sexagesimal, truncQ, round2, round_eq])
    (by norm_num [m6w, to_sexagesimal, truncQ, round2, round_eq])

theorem make_eq_some {bl tr : GeoPoint} {res sc : ℚ} {x y : ℤ} {w h : ℚ} {b : Block}
    (hmk : Block.make bl tr res sc x y w h = some b) :
    b = ⟨bl, tr, res, sc, x, y, w, h⟩ := by
  simp only [Block.make] at hmk
  split_ifs at hmk
  exact (Option.some.inj hmk).symm

theorem set_width_eq_some {b : Block} {w : ℚ} {c : Block}
    (hsw : Block.set_width b w = some c) : c = { b with width := w } := by
  simp only [Block.set_width] at hsw
  split_ifs at hsw
  exact (Option.some.inj hsw).symm

theorem set_height_eq_some {b : Block} {h : ℚ} {c : Block}
    (hsh : Block.set_height b h = some c) : c = { b with height := h } := by
  simp only [Block.set_height] at hsh
  split_ifs at hsh
  exact (Option.some.inj hsh).symm

theorem set_northern_block_points {dist : GeoPoint → GeoPoint → ℚ} {b : Block}
    {lat : ℚ} {last : Bool} {nb : Block}
    (hnb : Block.set_northern_block dist b lat last = some nb) :
    nb.bl_point = ⟨b.tr_point.latitude, b.bl_point.longitude⟩ ∧
    nb.tr_point = ⟨b.tr_point.latitude + lat, b.tr_point.longitude⟩ := by
  simp only [Block.set_northern_block] at hnb
  cases hmk : Block.make ⟨b.tr_point.latitude, b.bl_point.longitude⟩
      ⟨b.tr_point.latitude + lat, b.tr_point.longitude⟩ b.resolution b.scale b.x (b.y + 1)
      2048 2048 with
  | none =>
    rw [hmk] at hnb
    exact Option.noConfusion hnb
  | some nt =>
    simp only [hmk] at hnb
    cases hsw : nt.set_width b.width with
    | none =>
      simp only [hsw] at hnb
      exact Option.noConfusion hnb
    | some nt2 =>
      simp only [hsw] at hnb
      have h1 := make_eq_some hmk
      have h2 := set_width_eq_some hsw
      cases last with
      | false =>
        simp only [Bool.false_eq_true, if_false] at hnb
        have h3 := (Option.some.inj hnb)
        subst h3 h2 h1
        exact ⟨rfl, rfl⟩
      | true =>
        simp only [if_true] at hnb
        have h3 := set_height_eq_some hnb
        subst h3 h2 h1
        exact ⟨rfl, rfl⟩

theorem set_eastern_block_points {dist : GeoPoint → GeoPoint → ℚ} {b : Block}
    {long : ℚ} {last : Bool} {nb : Block}
    (hnb : Block.set_eastern_block dist b long last = some nb) :
    nb.bl_point = ⟨b.bl_point.latitude, b.tr_point.longitude⟩ ∧
    nb.tr_point = ⟨b.tr_point.latitude, b.tr_point.longitude + long⟩ := by
  simp only [Block.set_eastern_block] at hnb
  cases hmk : Block.make ⟨b.bl_point.latitude, b.tr_point.longitude⟩
      ⟨b.tr_point.latitude, b.tr_point.longitude + long⟩ b.resolution b.scale (b.x + 1) b.y
      2048 2048 with
  | none =>
    rw [hmk] at hnb
    exact Option.noConfusion hnb
  | some et =>
    simp only [hmk] at hnb
    cases hsh : et.set_height b.height with
    | none =>
      simp only [hsh] at hnb
      exact Option.noConfusion hnb
    | some et2 =>
      simp only [hsh] at hnb
      have h1 := make_eq_some hmk
      have h2 := set_height_eq_some hsh
      cases last with
      | false =>
        simp only [Bool.false_eq_true, if_false] at hnb
        have h3 := (Option.some.inj hnb)
        subst h3 h2 h1
        exact ⟨rfl, rfl⟩
      | true =>
        simp only [if_true] at hnb
        have h3 := set_width_eq_some hnb
        subst h3 h2 h1
        exact ⟨rfl, rfl⟩

theorem foldl_some_eq_getLast {col : List Block} (hne : col ≠ []) (acc : Option Block) :
    col.foldl (fun _ b => some b) acc = col.getLast? := by
  induction col generalizing acc with
  | nil => exact absurd rfl hne
  | cons a t ih =>
    cases t with
    | nil => simp
    | cons b t2 =>
      rw [List.getLast?_cons_cons]
      exact ih (by simp) (some a)

theorem last_visited_append_singleton (pref : List (List Block)) {col : List Block}
    (hne : col ≠ []) : last_visited (pref ++ [col]) = col.getLast? := by
  unfold last_visited
  rw [List.foldl_append]
  exact foldl_some_eq_getLast hne _

/-- The key property of the inner (northward) loop: starting from a
column block whose top latitude is the loop variable and does not exceed
the requested top latitude, a successful run appends blocks that keep the
column longitude, and the last block of the column reaches the requested
top latitude exactly. -/
theorem set_blocks_column_last {dist : GeoPoint → GeoPoint → ℚ} {m : MapData} {lat : ℚ} :
    ∀ {fuel : ℕ} {cb : Block} {ns ne : ℚ} {l : List Block} {hs : ℚ},
      MapData.set_blocks_column dist m lat fuel cb ns ne = some (l, hs) →
      cb.tr_point.latitude = ns →
      ne = ns + lat →
      cb.tr_point.latitude ≤ m.tr_point.latitude →
      ∃ lb, (cb :: l).getLast? = some lb ∧
        lb.tr_point = ⟨m.tr_point.latitude, cb.tr_point.longitude⟩ := by
  intro fuel
  induction fuel with
  | zero =>
    intro cb ns ne l hs h
    simp [MapData.set_blocks_column] at h
  | succ f ih =>
    intro cb ns ne l hs h hstart hend hle
    rw [MapData.set_blocks_column] at h
    by_cases hc : ns < m.tr_point.latitude
    · rw [if_pos hc] at h
      by_cases hcomplete : ne ≤ m.tr_point.latitude
      · rw [if_pos hcomplete] at h
        cases hnb : cb.set_northern_block dist lat false with
        | none =>
          simp only [hnb] at h
          exact Option.noConfusion h
        | some nb =>
          simp only [hnb] at h
          cases hrec : MapData.set_blocks_column dist m lat f nb ne (ne + lat) with
          | none =>
            simp only [hrec] at h
            exact Option.noConfusion h
          | some p =>
            obtain ⟨rest, hsum⟩ := p
            simp only [hrec, Option.some.injEq, Prod.mk.injEq] at h
            obtain ⟨hl, -⟩ := h
            have hpts := set_northern_block_points hnb
            have hnblat : nb.tr_point.latitude = ne := by
              rw [hpts.2, hstart, hend]
            have hnblong : nb.tr_point.longitude = cb.tr_point.longitude := by
              rw [hpts.2]
            obtain ⟨lb, hlast, hlb⟩ := ih hrec hnblat rfl (by rw [hnblat]; exact hcomplete)
            refine ⟨lb, ?_, ?_⟩
            · rw [← hl, List.getLast?_cons_cons]
              exact hlast
            · rw [hlb, hnblong]
      · rw [if_neg hcomplete] at h
        cases hnb : cb.set_northern_block dist (m.tr_point.latitude - ns) true with
        | none =>
          simp only [hnb] at h
          exact Option.noConfusion h
        | some nb =>
          simp only [hnb] at h
          cases hrec : MapData.set_blocks_column dist m lat f nb ne (ne + lat) with
          | none =>
            simp only [hrec] at h
            exact Option.noConfusion h
          | some p =>
            obtain ⟨rest, hsum⟩ := p
            simp only [hrec, Option.some.injEq, Prod.mk.injEq] at h
            obtain ⟨hl, -⟩ := h
            have hpts := set_northern_block_points hnb
            have hnbtr : nb.tr_point = ⟨m.tr_point.latitude, cb.tr_point.longitude⟩ := by
              rw [hpts.2, hstart]
              congr 1
              ring
            have hrest : rest = [] := by
              cases f with
              | zero => simp [MapData.set_blocks_column] at hrec
              | succ f2 =>
                rw [MapData.set_blocks_column] at hrec
                rw [if_neg (by push_neg at hcomplete ⊢; linarith)] at hrec
                simp only [Option.some.injEq, Prod.mk.injEq] at hrec
                exact hrec.1.symm
            subst hrest
            refine ⟨nb, ?_, hnbtr⟩
            rw [← hl]
            rfl
    · rw [if_neg hc] at h
      simp only [Option.some.injEq, Prod.mk.injEq] at h
      obtain ⟨hl, -⟩ := h
      have hlat2 : cb.tr_point.latitude = m.tr_point.latitude := by
        rw [hstart] at hle ⊢
        exact le_antisymm hle (not_lt.mp hc)
      refine ⟨cb, ?_, ?_⟩
      · rw [← hl]
        rfl
      · rw [← hlat2]

/-- The key property of the outer (eastward) loop from its second
iteration onward: given the invariants that the current column-first
block ends at the loop longitude, that its top latitude does not exceed
the requested one, and that the already-built columns (pref) end in a
block at the requested top latitude and the loop longitude, a successful
run leaves the very last visited block of the grid exactly at the
requested top-right corner. -/
theorem set_blocks_columns_last {dist : GeoPoint → GeoPoint → ℚ} {m : MapData}
    {lat long : ℚ} :
    ∀ {fuel : ℕ} {cfb : Block} {bs be : ℚ} {cols : List (List Block)} {ws : ℚ}
      {pref : List (List Block)} {j0 : Block},
      MapData.set_blocks_columns dist m lat long fuel cfb bs be = some (cols, ws) →
      cfb.tr_point.longitude = bs →
      be = bs + long →
      cfb.tr_point.latitude ≤ m.tr_point.latitude →
      bs ≤ m.tr_point.longitude →
      last_visited pref = some j0 →
      j0.tr_point = ⟨m.tr_point.latitude, bs⟩ →
      ∃ j, last_visited (pref ++ cols) = some j ∧ j.tr_point = m.tr_point := by
  intro fuel
  induction fuel with
  | zero =>
    intro cfb bs be cols ws pref j0 h
    simp [MapData.set_blocks_columns] at h
  | succ f ih =>
    intro cfb bs be cols ws pref j0 h hlong0 hbe hlatle hbsle hpref hj0
    rw [MapData.set_blocks_columns] at h
    by_cases hc : bs < m.tr_point.longitude
    · rw [if_pos hc] at h
      by_cases hcomplete : be ≤ m.tr_point.longitude
      · rw [if_pos hcomplete] at h
        cases hnfb : cfb.set_eastern_block dist long false with
        | none =>
          simp only [hnfb] at h
          exact Option.noConfusion h
        | some nfb =>
          simp only [hnfb] at h
          cases hcol : MapData.set_blocks_column dist m lat (f + 1) nfb
              nfb.tr_point.latitude (nfb.tr_point.latitude + lat) with
          | none =>
            simp only [hcol] at h
            exact Option.noConfusion h
          | some pc =>
            obtain ⟨colrest, hcs⟩ := pc
            simp only [hcol] at h
            cases hrec : MapData.set_blocks_columns dist m lat long f nfb be (be + long) with
            | none =>
              simp only [hrec] at h
              exact Option.noConfusion h
            | some pr =>
              obtain ⟨cols2, ws2⟩ := pr
              simp only [hrec, Option.some.injEq, Prod.mk.injEq] at h
              obtain ⟨hcols, -⟩ := h
              have hpts := set_eastern_block_points hnfb
              have hnfbtr : nfb.tr_point = ⟨cfb.tr_point.latitude, be⟩ := by
                rw [hpts.2, hlong0, hbe]
              obtain ⟨lb, hlast, hlb⟩ := set_blocks_column_last hcol rfl rfl
                (by rw [hnfbtr]; exact hlatle)
              have hlb2 : lb.tr_point = ⟨m.tr_point.latitude, be⟩ := by
                rw [hlb, hnfbtr]
              have hpref2 : last_visited (pref ++ [nfb :: colrest]) = some lb := by
                rw [last_visited_append_singleton pref (by simp)]
                exact hlast
              obtain ⟨j, hj, hjtr⟩ := ih hrec (by rw [hnfbtr]) rfl
                (by rw [hnfbtr]; exact hlatle) hcomplete hpref2 hlb2
              refine ⟨j, ?_, hjtr⟩
              rw [← hcols]
              rw [show pref ++ ((nfb :: colrest) :: cols2) =
                (pref ++ [nfb :: colrest]) ++ cols2 by simp]
              exact hj
      · rw [if_neg hcomplete] at h
        cases hnfb : cfb.set_eastern_block dist (m.tr_point.longitude - bs) true with
        | none =>
          simp only [hnfb] at h
          exact Option.noConfusion h
        | some nfb =>
          simp only [hnfb] at h
          cases hcol : MapData.set_blocks_column dist m lat (f + 1) nfb
              nfb.tr_point.latitude (nfb.tr_point.latitude + lat) with
          | none =>
            simp only [hcol] at h
            exact Option.noConfusion h
          | some pc =>
            obtain ⟨colrest, hcs⟩ := pc
            simp only [hcol] at h
            cases hrec : MapData.set_blocks_columns dist m lat long f nfb be (be + long) with
            | none =>
              simp only [hrec] at h
              exact Option.noConfusion h
            | some pr =>
              obtain ⟨cols2, ws2⟩ := pr
              simp only [hrec, Option.some.injEq, Prod.mk.injEq] at h
              obtain ⟨hcols, -⟩ := h
              have hpts := set_eastern_block_points hnfb
              have hnfbtr : nfb.tr_point = ⟨cfb.tr_point.latitude, m.tr_point.longitude⟩ := by
                rw [hpts.2, hlong0]
                congr 1
                ring
              obtain ⟨lb, hlast, hlb⟩ := set_blocks_column_last hcol rfl rfl
                (by rw [hnfbtr]; exact hlatle)
              have hlb2 : lb.tr_point = m.tr_point := by
                rw [hlb, hnfbtr]
              have hcols2nil : cols2 = [] := by
                cases f with
                | zero => simp [MapData.set_blocks_columns] at hrec
                | succ f2 =>
                  rw [MapData.set_blocks_columns] at hrec
                  rw [if_neg (by push_neg at hcomplete ⊢; linarith)] at hrec
                  simp only [Option.some.injEq, Prod.mk.injEq] at hrec
                  exact hrec.1.symm
              subst hcols2nil
              refine ⟨lb, ?_, hlb2⟩
              rw [← hcols]
              rw [show pref ++ [nfb :: colrest] = pref ++ [nfb :: colrest] from rfl]
              rw [last_visited_append_singleton pref (by simp)]
              exact hlast
    · rw [if_neg hc] at h
      simp only [Option.some.injEq, Prod.mk.injEq] at h
      obtain ⟨hcols, -⟩ := h
      have hbs : bs = m.tr_point.longitude := le_antisymm hbsle (not_lt.mp hc)
      refine ⟨j0, ?_, ?_⟩
      · rw [← hcols]
        simpa using hpref
      · rw [hj0, hbs]

theorem get_max_block_le (dest : GeoPoint → ℚ → ℚ → GeoPoint) (m : MapData) :
    (m.get_max_block dest).1 ≤ m.tr_point.latitude - m.bl_point.latitude ∧
    (m.get_max_block dest).2 ≤ m.tr_point.longitude - m.bl_point.longitude := by
  unfold MapData.get_max_block
  constructor
  · dsimp only
    split
    · rename_i hcond
      simp only [MapData.tl_point] at hcond
      linarith
    · simp [MapData.tl_point]
  · dsimp only
    split
    · rename_i hcond
      simp only [MapData.br_point] at hcond
      linarith
    · simp [MapData.br_point]

/-- Claim C1: for every bounding box with positive latitude and longitude
extents and every scale, resolution and geodesic collaborator for which
Map.set_blocks terminates normally (some state, for some fuel), the final
block visited by the checking loop sits exactly at the requested
top-right corner, so check_blocks_consistency passes (some false, no
MapException); and on any grid the check raises (some true) exactly when
the last visited block's top-right corner differs from the requested
one. -/
theorem C1_grid_consistency (dist : GeoPoint → GeoPoint → ℚ)
    (dest : GeoPoint → ℚ → ℚ → GeoPoint) (m : MapData) (fuel : ℕ) (st : GridState)
    (_hlat : m.bl_point.latitude < m.tr_point.latitude)
    (hlong : m.bl_point.longitude < m.tr_point.longitude)
    (h : m.set_blocks dist dest fuel = some st) :
    (∃ j, last_visited st.blocks = some j ∧ j.tr_point = m.tr_point) ∧
    check_blocks_consistency st.blocks m.tr_point = some false ∧
    (∀ blocks j, last_visited blocks = some j →
      (check_blocks_consistency blocks m.tr_point = some true ↔
        j.tr_point.longitude ≠ m.tr_point.longitude ∨
        j.tr_point.latitude ≠ m.tr_point.latitude)) := by
  have hiff : ∀ blocks j, last_visited blocks = some j →
      (check_blocks_consistency blocks m.tr_point = some true ↔
        j.tr_point.longitude ≠ m.tr_point.longitude ∨
        j.tr_point.latitude ≠ m.tr_point.latitude) := by
    intro blocks j hj
    unfold check_blocks_consistency
    rw [hj]
    simp
  have hmain : ∃ j, last_visited st.blocks = some j ∧ j.tr_point = m.tr_point := by
    simp only [MapData.set_blocks] at h
    cases hfb : m.get_first_block (m.get_max_block dest).1 (m.get_max_block dest).2 with
    | none =>
      simp only [hfb] at h
      exact Option.noConfusion h
    | some b00 =>
      simp only [hfb] at h
      rw [MapData.get_first_block] at hfb
      have hb00 := make_eq_some hfb
      have hb00bl : b00.bl_point = m.bl_point := by rw [hb00]
      have hb00tr : b00.tr_point =
          ⟨m.bl_point.latitude + (m.get_max_block dest).1,
           m.bl_point.longitude + (m.get_max_block dest).2⟩ := by rw [hb00]
      rw [hb00bl, if_pos hlong] at h
      have hle : b00.tr_point.latitude ≤ m.tr_point.latitude := by
        simp only [hb00tr]
        have := (get_max_block_le dest m).1
        linarith
      cases hcolrun : MapData.set_blocks_column dist m (m.get_max_block dest).1 fuel b00
          b00.tr_point.latitude (b00.tr_point.latitude + (m.get_max_block dest).1) with
      | none =>
        simp only [hcolrun] at h
        exact Option.noConfusion h
      | some p =>
        obtain ⟨col0rest, hsum⟩ := p
        simp only [hcolrun] at h
        cases hcolsrun : MapData.set_blocks_columns dist m (m.get_max_block dest).1
            (m.get_max_block dest).2 fuel b00
            (m.bl_point.longitude + (m.get_max_block dest).2)
            (m.bl_point.longitude + (m.get_max_block dest).2 + (m.get_max_block dest).2) with
        | none =>
          simp only [hcolsrun] at h
          exact Option.noConfusion h
        | some pr =>
          obtain ⟨cols, wsum⟩ := pr
          simp only [hcolsrun, Option.some.injEq] at h
          obtain ⟨lb0, hlast0, hlb0⟩ := set_blocks_column_last hcolrun rfl rfl hle
          have hpref : last_visited [b00 :: col0rest] = some lb0 := by
            have hx := last_visited_append_singleton ([] : List (List Block))
              (show b00 :: col0rest ≠ [] by simp)
            rw [List.nil_append] at hx
            rw [hx]
            exact hlast0
          have hj0 : lb0.tr_point =
              ⟨m.tr_point.latitude, m.bl_point.longitude + (m.get_max_block dest).2⟩ := by
            rw [hlb0, hb00tr]
          obtain ⟨j, hj, hjtr⟩ := set_blocks_columns_last hcolsrun
            (by simp only [hb00tr]) rfl hle
            (by have := (get_max_block_le dest m).2; linarith) hpref hj0
          refine ⟨j, ?_, hjtr⟩
          rw [← h]
          exact hj
  refine ⟨hmain, ?_, hiff⟩
  obtain ⟨j, hj, hjtr⟩ := hmain
  unfold check_blocks_consistency
  rw [hj]
  simp [hjtr]

theorem set_blocks_m0_eval : MapData.set_blocks dist0 dest0 m0 6 = some stW := by
  norm_num [MapData.set_blocks, MapData.set_blocks_column, MapData.set_blocks_columns,
    MapData.get_max_block, MapData.get_first_block, MapData.tl_point, MapData.br_point,
    Block.make, Block.set_northern_block, Block.set_eastern_block, Block.set_width,
    Block.set_height, Block.get_dots, Block.br_point, dist0, dest0, m0, stW]

/-- Witness for C1: for the request m0 the grid builder terminates with
the 2 x 2 grid stW, and the consistency check passes on it. -/
theorem C1_grid_consistency_witness :
    MapData.set_blocks dist0 dest0 m0 6 = some stW ∧
    check_blocks_consistency stW.blocks m0.tr_point = some false :=
  ⟨set_blocks_m0_eval,
   (C1_grid_consistency dist0 dest0 m0 6 stW (by norm_num [m0]) (by norm_num [m0])
     set_blocks_m0_eval).2.1⟩

/-- Claim C10: the origin block of every successfully built grid sits at
grid position (0,0) with the constructor default pixel dimensions
2048 x 2048, whatever the geographic deltas it was given. -/
theorem C10_origin_block_default_dims (dist : GeoPoint → GeoPoint → ℚ)
    (dest : GeoPoint → ℚ → ℚ → GeoPoint) (m : MapData) (fuel : ℕ) (st : GridState)
    (h : m.set_blocks dist dest fuel = some st) :
    ∃ b0 col0rest cols, st.blocks = (b0 :: col0rest) :: cols ∧
      b0.width = 2048 ∧ b0.height = 2048 ∧ b0.x = 0 ∧ b0.y = 0 ∧
      b0.bl_point = m.bl_point ∧
      b0.tr_point = ⟨m.bl_point.latitude + (m.get_max_block dest).1,
                     m.bl_point.longitude + (m.get_max_block dest).2⟩ := by
  simp only [MapData.set_blocks] at h
  cases hfb : m.get_first_block (m.get_max_block dest).1 (m.get_max_block dest).2 with
  | none =>
    simp only [hfb] at h
    exact Option.noConfusion h
  | some b00 =>
    simp only [hfb] at h
    rw [MapData.get_first_block] at hfb
    have hb00 := make_eq_some hfb
    by_cases hc : b00.bl_point.longitude < m.tr_point.longitude
    · rw [if_pos hc] at h
      cases hcolrun : MapData.set_blocks_column dist m (m.get_max_block dest).1 fuel b00
          b00.tr_point.latitude (b00.tr_point.latitude + (m.get_max_block dest).1) with
      | none =>
        simp only [hcolrun] at h
        exact Option.noConfusion h
      | some p =>
        obtain ⟨col0rest, hsum⟩ := p
        simp only [hcolrun] at h
        cases hcolsrun : MapData.set_blocks_columns dist m (m.get_max_block dest).1
            (m.get_max_block dest).2 fuel b00
            (b00.bl_point.longitude + (m.get_max_block dest).2)
            (b00.bl_point.longitude + (m.get_max_block dest).2 + (m.get_max_block dest).2) with
        | none =>
          simp only [hcolsrun] at h
          exact Option.noConfusion h
        | some pr =>
          obtain ⟨cols, ws⟩ := pr
          simp only [hcolsrun, Option.some.injEq] at h
          exact ⟨b00, col0rest, cols, by rw [← h], by rw [hb00], by rw [hb00],
            by rw [hb00], by rw [hb00], by rw [hb00], by rw [hb00]⟩
    · rw [if_neg hc] at h
      simp only [Option.some.injEq] at h
      exact ⟨b00, [], [], by rw [← h], by rw [hb00], by rw [hb00], by rw [hb00],
        by rw [hb00], by rw [hb00], by rw [hb00]⟩

theorem set_blocks_m2_eval :
    MapData.set_blocks dist0 dest0 m2 3 = some ⟨[[blk2]], 2048, 2048⟩ := by
  norm_num [MapData.set_blocks, MapData.set_blocks_column, MapData.set_blocks_columns,
    MapData.get_max_block, MapData.get_first_block, MapData.tl_point, MapData.br_point,
    Block.make, Block.set_northern_block, Block.set_eastern_block, Block.set_width,
    Block.set_height, Block.get_dots, Block.br_point, dist0, dest0, m2, blk2]

/-- Witness for C10 at a clipped request: for m2 both maximum-block
deltas are clipped to the half-degree box, yet the single (origin) block
keeps the default 2048 x 2048 pixel dimensions. -/
theorem C10_origin_block_default_dims_witness :
    ∃ b0 col0rest cols,
      (GridState.mk [[blk2]] 2048 2048).blocks = (b0 :: col0rest) :: cols ∧
      b0.width = 2048 ∧ b0.height = 2048 ∧ b0.x = 0 ∧ b0.y = 0 ∧
      b0.bl_point = m2.bl_point ∧
      b0.tr_point = ⟨m2.bl_point.latitude + (m2.get_max_block dest0).1,
                     m2.bl_point.longitude + (m2.get_max_block dest0).2⟩ :=
  C10_origin_block_default_dims dist0 dest0 m2 3 ⟨[[blk2]], 2048, 2048⟩ set_blocks_m2_eval

/-- Claim C2 (code_bug evidence): for the request m2, whose extent is at
most the maximum block size in both directions (the deltas are clipped to
the box extents), the grid builder does produce a 1 x 1 grid, but the
single block keeps the constructor default pixel dimensions 2048 x 2048
instead of maxPixelDimension of the box edges: under dist0 the pixel
dimension of the bottom edge (and of the western edge) is
floor(1 * (1 * 100000 / 100000) / 2.54) = 0, not 2048. -/
theorem C2_single_block_keeps_default_dims :
    MapData.set_blocks dist0 dest0 m2 3 = some ⟨[[blk2]], 2048, 2048⟩ ∧
    blk2.width = 2048 ∧ blk2.height = 2048 ∧
    Block.get_dots dist0 blk2 blk2.bl_point blk2.br_point = 0 ∧
    Block.get_dots dist0 blk2 blk2.bl_point ⟨blk2.tr_point.latitude, blk2.bl_point.longitude⟩ = 0 ∧
    ((Block.get_dots dist0 blk2 blk2.bl_point blk2.br_point : ℚ) ≠ blk2.width ∧
     (Block.get_dots dist0 blk2 blk2.bl_point
       ⟨blk2.tr_point.latitude, blk2.bl_point.longitude⟩ : ℚ) ≠ blk2.height) := by
  refine ⟨set_blocks_m2_eval, by norm_num [blk2], by norm_num [blk2], ?_, ?_, ?_, ?_⟩ <;>
    norm_num [Block.get_dots, Block.br_point, dist0, blk2]
